import Mathlib

/-!
Verification of the query-time retrieval / citation pipeline.

Shallow embedding of the query-time core of the internet2-chatbot repository:

* `src/src/backend/opensearch_query.py` — `select_top_documents`
* `src/src/backend/chatbot_backend.py` — conversation history, source
  tokenisation, response resolution, meeting-list augmentation and the
  Lambda handler.

Python floats are modelled as `ℚ` (the pipeline only compares and
subtracts scores), Python dicts built with fresh keys are modelled as
association lists in insertion order, and the external collaborators
(DynamoDB, OpenSearch, Bedrock) are modelled as explicit inputs.
-/

/-! ## §1 Document selection (`opensearch_query.select_top_documents`) -/

/-- One OpenSearch hit as seen by `select_top_documents`: only its
`_score` is inspected; `payload` stands for the rest of the hit. -/
structure Doc where
  score : ℚ
  payload : Nat
deriving DecidableEq, Repr

/-- The comparison used by `sorted(documents, key=lambda x: x["_score"],
reverse=True)`: `a` may come before `b` when `b` does not beat `a`. -/
def scoreGe (a b : Doc) : Prop := b.score ≤ a.score

instance : DecidableRel scoreGe := fun a b => inferInstanceAs (Decidable (b.score ≤ a.score))

instance : IsTotal Doc scoreGe := ⟨fun a b => le_total b.score a.score⟩

instance : IsTrans Doc scoreGe := ⟨fun _ _ _ h1 h2 => le_trans h2 h1⟩

/-- `sorted(documents, key=lambda x: x["_score"], reverse=True)` —
a stable sort, descending on `_score` (insertion sort is stable, like
Python's timsort). -/
def sortByScoreDesc (documents : List Doc) : List Doc :=
  List.insertionSort scoreGe documents

/-- Python `max(xs)` for a nonempty list: the running maximum is replaced
only by a strictly greater element (junk value `0` on `[]`; the source
only calls `max` under a nonemptiness guard). -/
def listMaxOf : List ℚ → ℚ
  | [] => 0
  | x :: xs => xs.foldl (fun m y => if m < y then y else m) x

/-- Python `xs.index(v)`: index of the first occurrence (junk value past
the end when absent, matching the `ValueError` never arising here because
the source only calls it on `max(xs)` with `xs` nonempty). -/
def pyIndexOf (x : ℚ) : List ℚ → Nat
  | [] => 0
  | y :: ys => if x = y then 0 else pyIndexOf x ys + 1

/-- `select_top_documents(hybrid_results, max_docs=5)` from
`opensearch_query.py`. `hybrid_hits` is `hybrid_results["hits"]["hits"]`.
`score_diffs.index(max(score_diffs))` is the index of the first maximal
consecutive drop; `max(..., 4)` re-enforces the minimum bound
("Selects at least four documents"). -/
def select_top_documents (hybrid_hits : List Doc) (max_docs : Nat := 5) : List Doc :=
  let sorted_docs := sortByScoreDesc hybrid_hits
  if sorted_docs.length ≤ max_docs then
    sorted_docs
  else
    let selected_docs := sorted_docs.take max_docs
    let scores := selected_docs.map (·.score)
    let score_diffs := List.zipWith (fun a b => a - b) scores scores.tail
    if score_diffs ≠ [] then
      let max_drop_index := Nat.max (pyIndexOf (listMaxOf score_diffs) score_diffs) 4
      sorted_docs.take (max_drop_index + 1)
    else
      selected_docs

theorem foldl_pymax_mem : ∀ (xs : List ℚ) (x : ℚ),
    xs.foldl (fun m y => if m < y then y else m) x ∈ x :: xs := by
  intro xs
  induction xs with
  | nil => intro x; simp
  | cons y ys ih =>
    intro x
    have h := ih (if x < y then y else x)
    simp only [List.foldl_cons]
    rcases List.mem_cons.1 h with h1 | h1
    · by_cases hxy : x < y
      · rw [h1, if_pos hxy]
        exact List.mem_cons_of_mem _ (List.mem_cons_self _ _)
      · rw [h1, if_neg hxy]
        exact List.mem_cons_self _ _
    · exact List.mem_cons_of_mem _ (List.mem_cons_of_mem _ h1)

theorem listMaxOf_mem (x : ℚ) (xs : List ℚ) : listMaxOf (x :: xs) ∈ x :: xs :=
  foldl_pymax_mem xs x

theorem pyIndexOf_lt_length {x : ℚ} : ∀ {l : List ℚ}, x ∈ l → pyIndexOf x l < l.length := by
  intro l
  induction l with
  | nil => intro h; simp at h
  | cons y ys ih =>
    intro h
    simp only [pyIndexOf, List.length_cons]
    by_cases hxy : x = y
    · rw [if_pos hxy]; omega
    · rw [if_neg hxy]
      have hmem : x ∈ ys := by
        rcases List.mem_cons.1 h with h1 | h1
        · exact absurd h1 hxy
        · exact h1
      have := ih hmem
      omega

theorem sortByScoreDesc_length (documents : List Doc) :
    (sortByScoreDesc documents).length = documents.length :=
  List.length_insertionSort scoreGe documents

theorem sortByScoreDesc_sorted (documents : List Doc) :
    (sortByScoreDesc documents).Pairwise scoreGe :=
  List.sorted_insertionSort scoreGe documents

theorem idx_max_eq (d : List ℚ) (hd : d.length = 4) :
    Nat.max (pyIndexOf (listMaxOf d) d) 4 = 4 := by
  have hmem : listMaxOf d ∈ d := by
    rcases d with _ | ⟨x, xs⟩
    · simp at hd
    · exact listMaxOf_mem x xs
  have hidx : pyIndexOf (listMaxOf d) d < 4 := hd ▸ pyIndexOf_lt_length hmem
  exact Nat.max_eq_right (Nat.le_of_lt hidx)

/-! ## §2 Data model for `chatbot_backend.py`

A hit's `_source.metadata` dict: missing string keys default to `""`
(`metadata.get(..., "")`), a missing `start_time` defaults to `0`
(`metadata.get("start_time", 0)`), and a missing `doc_id` is kept as
`none` because the source uses two different fallbacks for it
(`""` in `format_documents_for_llm`, `"Document"` elsewhere). -/

structure Meta where
  doc_id : Option String
  source_url : String
  member_content : String
  parent_folder_name : String
  parent_folder_url : String
  start_time : Nat
deriving DecidableEq, Repr

/-- A hit's `_source` value: passage text, document `type`, metadata. -/
structure Src where
  passage : String
  type : String
  metadata : Meta
deriving DecidableEq, Repr

/-- One OpenSearch hit as consumed by the backend. `id` is `_id`
(`none` models a missing or falsy value); `source` is `_source`
(`none` models a missing or falsy value, as the source tests it with
`item.get("_source")`). -/
structure Hit where
  id : Option String
  source : Option Src
deriving DecidableEq, Repr

/-- Value stored by `generate_source_mapping` under one token. -/
structure SourceData where
  source_url : String
  doc_type : String
  start_time : Option Nat
  member_content : String
  title : String
deriving DecidableEq, Repr

/-- Value stored by `extract_metadata_for_substitution` under one token.
`start_time = none` models the key being absent (it is only set for
`video`/`podcast` documents), so that `metadata_info.get("start_time")`
in `process_text` reads `None` for other types. -/
structure MetadataInfo where
  title : String
  parent_folder_name : String
  parent_folder_url : String
  member_content_flag : String
  doc_type : String
  start_time : Option Nat
deriving DecidableEq, Repr

/-- Python dict lookup `d.get(k)` over an insertion-ordered association
list (keys are freshly minted per request, hence distinct). -/
def alookup {β : Type} : List (String × β) → String → Option β
  | [], _ => none
  | (k, v) :: rest, key => if k = key then some v else alookup rest key

/-- The `source_data` record built per hit inside `generate_source_mapping`. -/
def mkSourceData (src : Src) : SourceData :=
  { source_url := src.metadata.source_url
    doc_type := src.type
    start_time :=
      if src.type = "video" ∨ src.type = "podcast" then some src.metadata.start_time else none
    member_content := src.metadata.member_content
    title := src.metadata.doc_id.getD "Document" }

/-- The `metadata_info` record built per hit inside
`extract_metadata_for_substitution`. -/
def mkMetadataInfo (src : Src) : MetadataInfo :=
  { title := src.metadata.doc_id.getD "Document"
    parent_folder_name := src.metadata.parent_folder_name
    parent_folder_url := src.metadata.parent_folder_url
    member_content_flag := src.metadata.member_content
    doc_type := src.type
    start_time :=
      if src.type = "video" ∨ src.type = "podcast" then some src.metadata.start_time else none }

/-- Loop body of `generate_source_mapping`: iterate the hits, minting a
fresh token (`generate_short_uuid`, modelled by the injective-by-intent
stream `supply`) for every hit that has a `_source`. `n` counts the
tokens minted so far. -/
def generate_source_mapping_go (supply : Nat → String) :
    List Hit → Nat → List (String × SourceData)
  | [], _ => []
  | h :: rest, n =>
    match h.source with
    | some src => (supply n, mkSourceData src) :: generate_source_mapping_go supply rest (n + 1)
    | none => generate_source_mapping_go supply rest n

/-- `generate_source_mapping(documents)` from `chatbot_backend.py`. -/
def generate_source_mapping (documents : List Hit) (supply : Nat → String) :
    List (String × SourceData) :=
  generate_source_mapping_go supply documents 0

/-- One entry of the model-visible document list. -/
structure FormattedDoc where
  uuid : String
  document_name : String
  passage : String
deriving DecidableEq, Repr

/-- Loop body of `format_documents_for_llm`:
`for i, (doc_uuid, _) in enumerate(source_mapping.items())` guarded by
`i < len(documents) and documents[i].get("_source")`. -/
def format_documents_go (documents : List Hit) :
    List (String × SourceData) → Nat → List FormattedDoc
  | [], _ => []
  | (doc_uuid, _) :: rest, i =>
    match documents[i]? with
    | some hit =>
      match hit.source with
      | some src =>
        { uuid := doc_uuid
          document_name := src.metadata.doc_id.getD ""
          passage := src.passage } :: format_documents_go documents rest (i + 1)
      | none => format_documents_go documents rest (i + 1)
    | none => format_documents_go documents rest (i + 1)

/-- `format_documents_for_llm(documents, source_mapping)` from
`chatbot_backend.py`. -/
def format_documents_for_llm (documents : List Hit)
    (source_mapping : List (String × SourceData)) : List FormattedDoc :=
  format_documents_go documents source_mapping 0

/-- Loop body of `extract_metadata_for_substitution`:
`for i, item in enumerate(documents)` guarded by
`item.get("_source") and i < len(source_items)`; the token is
`source_items[i][0]`, "the UUID at the same index position". -/
def extract_metadata_go (source_items : List (String × SourceData)) :
    List Hit → Nat → List (String × MetadataInfo)
  | [], _ => []
  | item :: rest, i =>
    match item.source with
    | some src =>
      match source_items[i]? with
      | some p => (p.1, mkMetadataInfo src) :: extract_metadata_go source_items rest (i + 1)
      | none => extract_metadata_go source_items rest (i + 1)
    | none => extract_metadata_go source_items rest (i + 1)

/-- `extract_metadata_for_substitution(documents, source_mapping)` from
`chatbot_backend.py`. -/
def extract_metadata_for_substitution (documents : List Hit)
    (source_mapping : List (String × SourceData)) : List (String × MetadataInfo) :=
  extract_metadata_go source_mapping documents 0

/-- `extract_document_ids(documents)`: collect truthy `_id` fields. -/
def extract_document_ids (documents : List Hit) : List String :=
  documents.filterMap (·.id)

/-! ## §3 Conversation store (`get_conversation_history`, history context)

The DynamoDB table holds one partition per session, sorted by the
`timestamp` sort key.  `stored` is that partition in chronological order
(oldest first); the query with `ScanIndexForward=False, Limit=10`
returns `stored.reverse.take 10` (newest first, capped at 10 raw rows). -/

structure Msg where
  role : String
  content : String
deriving DecidableEq, Repr

/-- `get_conversation_history(session_id)` from `chatbot_backend.py`:
`messages` is the query result (newest first); the function returns
`list(reversed(messages[-5:]))`.  Python `messages[-5:]` is
`drop (length - 5)`. -/
def get_conversation_history (stored : List Msg) : List Msg :=
  let messages := stored.reverse.take 10
  (messages.drop (messages.length - 5)).reverse

/-- `build_conversation_context(history, current_query)` from
`chatbot_backend.py`. -/
def build_conversation_context (history : List Msg) (current_query : String) : String :=
  if history = [] then current_query
  else
    String.intercalate "\n\n"
      ((history.map fun msg =>
        if msg.role = "user" then "Previous question: " ++ msg.content
        else "Previous answer: " ++ msg.content) ++
       ["Current question: " ++ current_query])

/-! ## §4 Response resolution (`process_text`)

`process_text` applies two regex substitution passes:
pass 1 replaces every `<token>` marker (`<([a-f0-9]{8})>`) via
`replace_uuid`, pass 2 deletes any remaining angle-bracket span
(`<[^>]*>`).  Both passes are embedded as left-to-right scanners with
the same match/advance discipline as `re.sub`. -/

/-- The character class `[a-f0-9]`. -/
def isHexLower (c : Char) : Bool := ('a' ≤ c && c ≤ 'f') || ('0' ≤ c && c ≤ '9')

/-- Python truthiness of the `start_time` value read by `process_text`
(`None` and `0` are falsy). -/
def truthyTime : Option Nat → Bool
  | none => false
  | some n => n != 0

/-- String rendering of the `start_time` value inside the
`f"{source_url}#t={start_time}"` interpolation. -/
def timeToString : Option Nat → String
  | none => ""
  | some n => toString n

/-- The member-content badge built inside `replace_uuid`. -/
def badgeOf (metadata_info : MetadataInfo) : String :=
  if metadata_info.member_content_flag = "true" then "[Subscriber-only]" else "[Public]"

/-- `replace_uuid(match)` from `process_text`: if the token is in both
mappings, build the markdown citation (badge from
`member_content_flag == "true"`, `#t=` suffix only for `video`/`podcast`
with truthy `start_time`); otherwise return the original `<token>`
marker unchanged. -/
def replace_uuid (uuid_mapping : List (String × SourceData))
    (metadata_mapping : List (String × MetadataInfo)) (tok : String) : String :=
  match alookup uuid_mapping tok, alookup metadata_mapping tok with
  | some source_data, some metadata_info =>
    let badge := badgeOf metadata_info
    if (metadata_info.doc_type = "video" ∨ metadata_info.doc_type = "podcast") ∧
        truthyTime metadata_info.start_time then
      "[" ++ metadata_info.title ++ "](" ++ source_data.source_url ++ "#t=" ++
        timeToString metadata_info.start_time ++ ") — _" ++ badge ++ "_"
    else
      "[" ++ metadata_info.title ++ "](" ++ source_data.source_url ++ ") — _" ++ badge ++ "_"
  | _, _ => "<" ++ tok ++ ">"

/-- Pass 1 scanner, `re.sub(r"<([a-f0-9]{8})>", replace_uuid, text)`.
State `none`: outside any candidate match.  State `some pend`: the
scanner sits after a `<` with `pend` (reversed) hex characters
collected.  On a failed candidate the consumed characters are emitted
verbatim and scanning resumes at the breaking character, exactly like
the regex engine advancing past a position where the pattern fails. -/
def subUuidGo (um : List (String × SourceData)) (mm : List (String × MetadataInfo)) :
    List Char → Option (List Char) → List Char
  | [], none => []
  | [], some pend => '<' :: pend.reverse
  | c :: cs, none =>
    if c = '<' then subUuidGo um mm cs (some [])
    else c :: subUuidGo um mm cs none
  | c :: cs, some pend =>
    if c = '>' ∧ pend.length = 8 then
      (replace_uuid um mm (String.mk pend.reverse)).data ++ subUuidGo um mm cs none
    else if isHexLower c ∧ pend.length < 8 then
      subUuidGo um mm cs (some (c :: pend))
    else
      '<' :: pend.reverse ++
        (if c = '<' then subUuidGo um mm cs (some [])
         else c :: subUuidGo um mm cs none)

/-- Pass 2 scanner, `re.sub(r"<[^>]*>", "", text)`.  State `some pend`:
inside a candidate span opened by `<`; if the span is closed by `>` it
is dropped, and an unclosed span at the end of input is emitted
verbatim (the regex cannot match a `<` with no later `>`). -/
def stripAngleGo : List Char → Option (List Char) → List Char
  | [], none => []
  | [], some pend => '<' :: pend.reverse
  | c :: cs, none =>
    if c = '<' then stripAngleGo cs (some [])
    else c :: stripAngleGo cs none
  | c :: cs, some pend =>
    if c = '>' then stripAngleGo cs none
    else stripAngleGo cs (some (c :: pend))

/-- `process_text(text, uuid_mapping, metadata_mapping)` from
`chatbot_backend.py`: pass 1 then pass 2. -/
def process_text (text : String) (uuid_mapping : List (String × SourceData))
    (metadata_mapping : List (String × MetadataInfo)) : String :=
  String.mk (stripAngleGo (subUuidGo uuid_mapping metadata_mapping text.data none) none)

/-! ## §5 Meeting-list augmentation (`add_meeting_list`)

`re.findall(r"([a-f0-9]{8})", text)` finds the non-overlapping,
left-to-right maximal matches: within any maximal run of hex characters
it yields the consecutive 8-character chunks from the start of the run.
The scanner below carries the hex characters collected since the last
boundary (reversed), emitting a token whenever 8 have accumulated. -/

def findTokensGo : List Char → List Char → List String
  | [], _ => []
  | c :: cs, pend =>
    if isHexLower c then
      if pend.length = 7 then
        String.mk (pend.reverse ++ [c]) :: findTokensGo cs []
      else findTokensGo cs (c :: pend)
    else findTokensGo cs []

/-- `re.findall(r"([a-f0-9]{8})", text)`. -/
def findTokens (text : List Char) : List String := findTokensGo text []

/-- The meeting triple collected for one referenced token:
`metadata_mapping.get(uuid, {})` with `""` defaults, kept only when both
`parent_folder_name` and `parent_folder_url` are non-empty (truthy). -/
def meetingTriple (metadata_mapping : List (String × MetadataInfo)) (tok : String) :
    Option (String × String × String) :=
  match alookup metadata_mapping tok with
  | some metadata =>
    if metadata.parent_folder_name ≠ "" ∧ metadata.parent_folder_url ≠ "" then
      some (metadata.parent_folder_name, metadata.parent_folder_url,
        metadata.member_content_flag)
    else none
  | none => none

/-- Python string `<`: lexicographic comparison of Unicode code points. -/
def charListLt : List Char → List Char → Bool
  | [], [] => false
  | [], _ :: _ => true
  | _ :: _, [] => false
  | a :: as, b :: bs =>
    if a.toNat < b.toNat then true
    else if b.toNat < a.toNat then false
    else charListLt as bs

/-- Python `a < b` on strings. -/
def strLtB (a b : String) : Bool := charListLt a.data b.data

/-- Python tuple comparison `(n, u, m) <= (n2, u2, m2)`: lexicographic,
as used by `sorted(meetings)`. -/
def tripleLeB (a b : String × String × String) : Bool :=
  strLtB a.1 b.1 ||
    (decide (a.1 = b.1) &&
      (strLtB a.2.1 b.2.1 ||
        (decide (a.2.1 = b.2.1) &&
          (strLtB a.2.2 b.2.2 || decide (a.2.2 = b.2.2)))))

/-- `tripleLeB` as a relation, for `List.insertionSort` and
`List.Pairwise`. -/
def tripleLE (a b : String × String × String) : Prop := tripleLeB a b = true

instance : DecidableRel tripleLE := fun a b => inferInstanceAs (Decidable (tripleLeB a b = true))

theorem charListLt_trichotomy :
    ∀ as bs : List Char, charListLt as bs = true ∨ as = bs ∨ charListLt bs as = true := by
  intro as
  induction as with
  | nil =>
    intro bs
    cases bs with
    | nil => exact Or.inr (Or.inl rfl)
    | cons b bs => exact Or.inl rfl
  | cons a as ih =>
    intro bs
    cases bs with
    | nil => exact Or.inr (Or.inr rfl)
    | cons b bs =>
      rcases Nat.lt_trichotomy a.toNat b.toNat with h | h | h
      · exact Or.inl (by simp [charListLt, h])
      · have hab : a = b := Char.ext (by
          have hv : a.val.toNat = b.val.toNat := h
          exact UInt32.toNat.inj hv)
        subst hab
        rcases ih bs with h1 | h1 | h1
        · exact Or.inl (by simp [charListLt, h1])
        · exact Or.inr (Or.inl (by rw [h1]))
        · exact Or.inr (Or.inr (by simp [charListLt, h1]))
      · exact Or.inr (Or.inr (by simp [charListLt, h, Nat.not_lt.mpr (Nat.le_of_lt h)]))

theorem charListLt_trans :
    ∀ as bs cs : List Char, charListLt as bs = true → charListLt bs cs = true →
      charListLt as cs = true := by
  intro as
  induction as with
  | nil =>
    intro bs cs h1 h2
    cases bs with
    | nil => simp [charListLt] at h1
    | cons b bs =>
      cases cs with
      | nil => simp [charListLt] at h2
      | cons c cs => rfl
  | cons a as ih =>
    intro bs cs h1 h2
    cases bs with
    | nil => simp [charListLt] at h1
    | cons b bs =>
      cases cs with
      | nil => simp [charListLt] at h2
      | cons c cs =>
        simp only [charListLt] at h1 h2 ⊢
        by_cases hab : a.toNat < b.toNat
        · by_cases hbc : b.toNat < c.toNat
          · rw [if_pos (Nat.lt_trans hab hbc)]
          · rw [if_neg hbc] at h2
            by_cases hcb : c.toNat < b.toNat
            · simp [hcb] at h2
            · have : b.toNat = c.toNat := Nat.le_antisymm (Nat.not_lt.mp hcb) (Nat.not_lt.mp hbc)
              rw [if_pos (this ▸ hab)]
        · rw [if_neg hab] at h1
          by_cases hba : b.toNat < a.toNat
          · simp [hba] at h1
          · have heq : a.toNat = b.toNat := Nat.le_antisymm (Nat.not_lt.mp hba) (Nat.not_lt.mp hab)
            rw [if_neg hba] at h1
            by_cases hbc : b.toNat < c.toNat
            · rw [if_pos (heq ▸ hbc)]
            · rw [if_neg hbc] at h2
              by_cases hcb : c.toNat < b.toNat
              · simp [hcb] at h2
              · have heq2 : b.toNat = c.toNat :=
                  Nat.le_antisymm (Nat.not_lt.mp hcb) (Nat.not_lt.mp hbc)
                rw [if_neg hcb] at h2
                rw [if_neg (heq ▸ hbc), if_neg (heq2 ▸ heq ▸ hba)]
                exact ih bs cs h1 h2

theorem strLtB_trichotomy (a b : String) :
    strLtB a b = true ∨ a = b ∨ strLtB b a = true := by
  rcases charListLt_trichotomy a.data b.data with h | h | h
  · exact Or.inl h
  · refine Or.inr (Or.inl ?_)
    cases a; cases b
    exact congrArg String.mk h
  · exact Or.inr (Or.inr h)

theorem strLtB_trans {a b c : String} (h1 : strLtB a b = true) (h2 : strLtB b c = true) :
    strLtB a c = true :=
  charListLt_trans a.data b.data c.data h1 h2

instance : IsTotal (String × String × String) tripleLE := by
  constructor
  intro a b
  simp only [tripleLE, tripleLeB, Bool.or_eq_true, Bool.and_eq_true, decide_eq_true_eq]
  rcases strLtB_trichotomy a.1 b.1 with h1 | h1 | h1
  · exact Or.inl (Or.inl h1)
  · rcases strLtB_trichotomy a.2.1 b.2.1 with h2 | h2 | h2
    · exact Or.inl (Or.inr ⟨h1, Or.inl h2⟩)
    · rcases strLtB_trichotomy a.2.2 b.2.2 with h3 | h3 | h3
      · exact Or.inl (Or.inr ⟨h1, Or.inr ⟨h2, Or.inl h3⟩⟩)
      · exact Or.inl (Or.inr ⟨h1, Or.inr ⟨h2, Or.inr h3⟩⟩)
      · exact Or.inr (Or.inr ⟨h1.symm, Or.inr ⟨h2.symm, Or.inl h3⟩⟩)
    · exact Or.inr (Or.inr ⟨h1.symm, Or.inl h2⟩)
  · exact Or.inr (Or.inl h1)

instance : IsTrans (String × String × String) tripleLE := by
  constructor
  intro a b c hab hbc
  simp only [tripleLE, tripleLeB, Bool.or_eq_true, Bool.and_eq_true,
    decide_eq_true_eq] at hab hbc ⊢
  rcases hab with h1 | ⟨e1, h2⟩
  · rcases hbc with g1 | ⟨f1, _⟩
    · exact Or.inl (strLtB_trans h1 g1)
    · exact Or.inl (f1 ▸ h1)
  · rcases hbc with g1 | ⟨f1, g2⟩
    · exact Or.inl (e1 ▸ g1)
    · refine Or.inr ⟨e1.trans f1, ?_⟩
      rcases h2 with h21 | ⟨e2, h22⟩
      · rcases g2 with g21 | ⟨f2, _⟩
        · exact Or.inl (strLtB_trans h21 g21)
        · exact Or.inl (f2 ▸ h21)
      · rcases g2 with g21 | ⟨f2, g22⟩
        · exact Or.inl (e2 ▸ g21)
        · refine Or.inr ⟨e2.trans f2, ?_⟩
          rcases h22 with h221 | h221
          · rcases g22 with g221 | g221
            · exact Or.inl (strLtB_trans h221 g221)
            · exact Or.inl (g221 ▸ h221)
          · rcases g22 with g221 | g221
            · exact Or.inl (h221 ▸ g221)
            · exact Or.inr (h221.trans g221)

/-- One markdown bullet of the meeting list, with its access badge. -/
def bulletFor (t : String × String × String) : String :=
  "- [" ++ t.1 ++ "](" ++ t.2.1 ++ ") — " ++
    (if t.2.2 = "true" then "*[Subscriber-only]*" else "*[Public]*") ++ "\n"

/-- `add_meeting_list(text, metadata_mapping)` from `chatbot_backend.py`.
`referenced_uuids` is a Python set (deduplicated); `meetings` is a set
of triples; the bullets are `sorted(meetings)`, each formatted by
`bulletFor`.  Deduplicating before sorting reproduces the set semantics:
the sorted list of distinct triples does not depend on set iteration
order. -/
def add_meeting_list (text : String)
    (metadata_mapping : List (String × MetadataInfo)) : String :=
  let referenced_uuids := (findTokens text.data).dedup
  let meetings := (referenced_uuids.filterMap (meetingTriple metadata_mapping)).dedup
  if meetings ≠ [] then
    text ++ "\n\n**Meetings referenced:**\n" ++
      String.join ((List.insertionSort tripleLE meetings).map bulletFor)
  else text

/-! ## §6 The Lambda handler (`lambda_handler`)

External collaborators are explicit inputs:

* `body`: the parsed request body (`query`, `session_id`), or a parse
  failure (malformed JSON / missing `query`);
* `stored`: the session's conversation partition in chronological
  order, or a store read failure;
* `retrieval`: `generate_text_embedding` + `get_documents` on the
  contextual query, or an index/embedding failure;
* `model`: `invoke_model` — it catches its own exceptions and returns
  `None` on failure;
* `supply`: the `generate_short_uuid` stream;
* `template`: `os.getenv("CHAT_PROMPT").format(documents=..., citations=...)`
  as a black-box two-slot format;
* `clock`: `int(time.time() * 1000)` at the n-th `save_message` call.
-/

structure Env where
  body : Except Unit (String × String)
  stored : Except Unit (List Msg)
  retrieval : String → Except Unit (List Hit)
  model : String → Option String
  supply : Nat → String
  template : String → String → String
  clock : Nat → Nat

/-- One row written by `save_message`; `document_ids` is present only
when the passed list is truthy (non-empty). -/
structure SavedMsg where
  session_id : String
  timestamp : Nat
  role : String
  content : String
  document_ids : Option (List String)
deriving DecidableEq, Repr

/-- The handler's HTTP result: `ok` is the 200 body fields, `err` is the
500 path (`json.dumps("Error processing message")`). -/
inductive LambdaOut where
  | ok (response : String) (session_id : String) (timestamp : Nat)
  | err (body : String)
deriving DecidableEq, Repr

/-- `str.title()` for the single-word role strings stored by this
system (`"user"`, `"assistant"`). -/
def titleCase (s : String) : String :=
  match s.data with
  | [] => ""
  | c :: cs => String.mk (c.toUpper :: cs.map Char.toLower)

/-- The `history_context` block built in `lambda_handler`: when history
is non-empty, `<conversation_history>` + the last 4 messages
(`history[-4:]`) each as `Role: content\n`, a blank line, and the
closing tag. -/
def historyContext (history : List Msg) : String :=
  if history = [] then ""
  else
    "<conversation_history>" ++
      String.join ((history.drop (history.length - 4)).map fun msg =>
        titleCase msg.role ++ ": " ++ msg.content ++ "\n") ++
      "\n" ++ "</conversation_history>"

/-- The full prompt assembled in `lambda_handler`: history block,
`"User: " + user_query + "\n"`, then the filled template. -/
def buildPrompt (history : List Msg) (user_query : String) (filled : String) : String :=
  historyContext history ++ "User: " ++ user_query ++ "\n" ++ filled

/-- Stand-in for Python `str()` of the formatted-docs list passed into
the prompt template (the template itself is a black box). -/
def strFormattedDocs (docs : List FormattedDoc) : String :=
  String.join (docs.map fun d => "(" ++ d.uuid ++ "|" ++ d.document_name ++ "|" ++ d.passage ++ ")")

/-- Stand-in for Python `str()` of the simplified token→URL mapping. -/
def strSimplifiedMapping (m : List (String × String)) : String :=
  String.join (m.map fun p => "(" ++ p.1 ++ "|" ++ p.2 ++ ")")

/-- `lambda_handler(event, context)` from `chatbot_backend.py`.  Any
raised exception is caught by the blanket `except` and becomes the
generic 500 response; the pair's second component lists the
`save_message` writes performed (in order). -/
def lambda_handler (env : Env) : LambdaOut × List SavedMsg :=
  match env.body with
  | .error _ => (.err "Error processing message", [])
  | .ok (user_query, session_id) =>
    match env.stored with
    | .error _ => (.err "Error processing message", [])
    | .ok stored =>
      let history := get_conversation_history stored
      let contextual_query := build_conversation_context history user_query
      match env.retrieval contextual_query with
      | .error _ => (.err "Error processing message", [])
      | .ok selected_docs =>
        let source_mapping := generate_source_mapping selected_docs env.supply
        let formatted_docs := format_documents_for_llm selected_docs source_mapping
        let metadata_mapping := extract_metadata_for_substitution selected_docs source_mapping
        let simplified_mapping := source_mapping.map fun p => (p.1, p.2.source_url)
        let prompt := buildPrompt history user_query
          (env.template (strFormattedDocs formatted_docs)
            (strSimplifiedMapping simplified_mapping))
        match env.model prompt with
        | none =>
          -- `invoke_model` returned `None`; `add_meeting_list(None, ...)`
          -- raises `TypeError` inside `re.findall`, the blanket `except`
          -- yields the generic 500 response, and nothing is saved.
          (.err "Error processing message", [])
        | some model_response =>
          let meeting_response := add_meeting_list model_response metadata_mapping
          let final_response := process_text meeting_response source_mapping metadata_mapping
          let document_ids := extract_document_ids selected_docs
          let user_ts := env.clock 0
          let assistant_ts := env.clock 1
          (.ok final_response session_id assistant_ts,
            [{ session_id := session_id, timestamp := user_ts, role := "user",
               content := user_query, document_ids := none },
             { session_id := session_id, timestamp := assistant_ts, role := "assistant",
               content := final_response,
               document_ids := if document_ids = [] then none else some document_ids }])

/-! ## Claim theorems -/

/-- C1 (amended): for every candidate pool and the default cap
`max_docs = 5`, `select_top_documents` returns exactly `min(P, 5)`
documents, sorted by descending fused score — precisely the top five of
the stably score-sorted pool, so the confidence cutoff is unreachable
and the large-gap pool of the claim's example also yields exactly five.
The original claim's quantification over every `max_docs` fails (see the
counterexample): the drop index is clamped with `max(..., 4)`, a
constant that matches the window only for the default cap. -/
theorem C1_select_top_documents_default_cap (docs : List Doc) :
    select_top_documents docs 5 = (sortByScoreDesc docs).take 5 ∧
    (select_top_documents docs 5).length = min docs.length 5 ∧
    (select_top_documents docs 5).Pairwise scoreGe := by
  have hlen := sortByScoreDesc_length docs
  have hsorted := sortByScoreDesc_sorted docs
  have keyEq : select_top_documents docs 5 = (sortByScoreDesc docs).take 5 := by
    simp only [select_top_documents]
    split_ifs with h1 h2
    · exact (List.take_of_length_le h1).symm
    · have hlt : 5 < (sortByScoreDesc docs).length := Nat.lt_of_not_le h1
      have htake : ((sortByScoreDesc docs).take 5).length = 5 := by
        rw [List.length_take]
        exact Nat.min_eq_left (Nat.le_of_lt hlt)
      have hdlen : (List.zipWith (fun a b => a - b)
          (((sortByScoreDesc docs).take 5).map (·.score))
          (((sortByScoreDesc docs).take 5).map (·.score)).tail).length = 4 := by
        rw [List.length_zipWith, List.length_map, List.length_tail, List.length_map, htake]
        omega
      rw [idx_max_eq _ hdlen]
    · exfalso
      have hlt : 5 < (sortByScoreDesc docs).length := Nat.lt_of_not_le h1
      have htake : ((sortByScoreDesc docs).take 5).length = 5 := by
        rw [List.length_take]
        exact Nat.min_eq_left (Nat.le_of_lt hlt)
      apply h2
      intro hnil
      have hdlen : (List.zipWith (fun a b => a - b)
          (((sortByScoreDesc docs).take 5).map (·.score))
          (((sortByScoreDesc docs).take 5).map (·.score)).tail).length = 4 := by
        rw [List.length_zipWith, List.length_map, List.length_tail, List.length_map, htake]
        omega
      rw [hnil] at hdlen
      simp at hdlen
  refine ⟨keyEq, ?_, ?_⟩
  · rw [keyEq, List.length_take, hlen, Nat.min_comm]
  · rw [keyEq]
    exact hsorted.sublist (List.take_sublist 5 _)

/-- C1 counterexample: with cap `max_docs = 2` and a pool of 3 documents
(scores 3, 2, 1), `select_top_documents` returns all 3 documents —
`max(drop_index, 4) = 4` ignores the cap, so the result is not
`min(P, max_docs) = 2`.  The claim's universal quantification over
`max_docs` is false. -/
theorem C1_counterexample_cap_two :
    (select_top_documents [⟨3, 0⟩, ⟨2, 1⟩, ⟨1, 2⟩] 2).length = 3 ∧
    ¬ (select_top_documents [⟨3, 0⟩, ⟨2, 1⟩, ⟨1, 2⟩] 2).length = min 3 2 := by
  have h : select_top_documents [⟨3, 0⟩, ⟨2, 1⟩, ⟨1, 2⟩] 2 =
      [⟨3, 0⟩, ⟨2, 1⟩, ⟨1, 2⟩] := by
    norm_num [select_top_documents, sortByScoreDesc, scoreGe, listMaxOf, pyIndexOf,
      List.insertionSort, List.orderedInsert]
  rw [h]
  norm_num

/-- C3: `get_conversation_history` does not return the most recent five
messages.  The query is time-descending, so `messages[-5:]` slices the
OLDEST five of the fetched window; with six stored messages the function
returns messages 1–5 (oldest first) where the claim — and the
function's own docstring "Get last 5 messages" — require messages 2–6.
This evaluates the code at the failing input. -/
theorem C3_get_history_returns_oldest_window :
    get_conversation_history
      [⟨"user", "m1"⟩, ⟨"assistant", "m2"⟩, ⟨"user", "m3"⟩,
       ⟨"assistant", "m4"⟩, ⟨"user", "m5"⟩, ⟨"assistant", "m6"⟩] =
      [⟨"user", "m1"⟩, ⟨"assistant", "m2"⟩, ⟨"user", "m3"⟩,
       ⟨"assistant", "m4"⟩, ⟨"user", "m5"⟩] ∧
    ([⟨"user", "m1"⟩, ⟨"assistant", "m2"⟩, ⟨"user", "m3"⟩,
      ⟨"assistant", "m4"⟩, ⟨"user", "m5"⟩] : List Msg) ≠
      [⟨"assistant", "m2"⟩, ⟨"user", "m3"⟩, ⟨"assistant", "m4"⟩,
       ⟨"user", "m5"⟩, ⟨"assistant", "m6"⟩] := by decide

/-- A concrete environment in which the model invocation yields no text. -/
def envModelNone : Env :=
  { body := .ok ("q", "s")
    stored := .ok []
    retrieval := fun _ => .ok []
    model := fun _ => none
    supply := fun _ => ""
    template := fun _ _ => ""
    clock := fun _ => 0 }

/-- C6: when `invoke_model` returns no text, the handler does NOT
short-circuit to a "could not generate an answer" message: it passes
`None` into `add_meeting_list`, whose `re.findall` raises `TypeError`,
and the blanket `except` returns the generic 500 body
`"Error processing message"`; nothing is saved.  This evaluates the
code at the failing input. -/
theorem C6_model_none_yields_generic_500 :
    lambda_handler envModelNone = (.err "Error processing message", []) := by
  rfl

/-! ## §7 Auxiliary notions used by the resolution theorems -/

/-- `sep.join(parts)` — the text obtained by putting `sep` between
consecutive parts; used to describe a text containing a marker at every
part boundary. -/
def sepJoin (sep : String) : List String → String
  | [] => ""
  | [p] => p
  | p :: q :: ps => p ++ sep ++ sepJoin sep (q :: ps)

/-- No angle-bracket span remains: after any `<` there is no later `>`.
Neither substitution pass can match anything in such a text. -/
def noAngleSpan : List Char → Bool
  | [] => true
  | c :: cs => (if c = '<' then decide ('>' ∉ cs) else true) && noAngleSpan cs

theorem strData_append (a b : String) : (a ++ b).data = a.data ++ b.data := rfl

theorem noAngleSpan_cons {c : Char} {cs : List Char}
    (h : noAngleSpan (c :: cs) = true) : noAngleSpan cs = true := by
  simp only [noAngleSpan, Bool.and_eq_true] at h
  exact h.2

theorem noAngleSpan_lt {cs : List Char}
    (h : noAngleSpan ('<' :: cs) = true) : '>' ∉ cs := by
  simp [noAngleSpan] at h
  exact h.1

theorem noAngleSpan_of_no_gt {cs : List Char} (h : '>' ∉ cs) : noAngleSpan cs = true := by
  induction cs with
  | nil => rfl
  | cons c cs ih =>
    have hcs : '>' ∉ cs := fun hm => h (List.mem_cons_of_mem _ hm)
    simp only [noAngleSpan, Bool.and_eq_true]
    refine ⟨?_, ih hcs⟩
    split_ifs with hc
    · simpa using hcs
    · rfl

theorem noAngleSpan_of_no_lt {cs : List Char} (h : ∀ c ∈ cs, c ≠ '<') :
    noAngleSpan cs = true := by
  induction cs with
  | nil => rfl
  | cons c cs ih =>
    simp only [noAngleSpan, Bool.and_eq_true]
    refine ⟨?_, ih fun x hx => h x (List.mem_cons_of_mem _ hx)⟩
    rw [if_neg (h c (List.mem_cons_self _ _))]

theorem subUuidGo_no_lt_append (um : List (String × SourceData))
    (mm : List (String × MetadataInfo)) :
    ∀ (pre x : List Char), (∀ c ∈ pre, c ≠ '<') →
      subUuidGo um mm (pre ++ x) none = pre ++ subUuidGo um mm x none := by
  intro pre
  induction pre with
  | nil => intro x _; rfl
  | cons c cs ih =>
    intro x h
    have hc : c ≠ '<' := h c (List.mem_cons_self _ _)
    simp only [List.cons_append, subUuidGo, if_neg hc, List.append_eq]
    rw [ih x fun d hd => h d (List.mem_cons_of_mem _ hd)]

theorem subUuidGo_collect (um : List (String × SourceData))
    (mm : List (String × MetadataInfo)) :
    ∀ (h : List Char) (pend rest : List Char), (∀ c ∈ h, isHexLower c = true) →
      pend.length + h.length = 8 →
      subUuidGo um mm (h ++ '>' :: rest) (some pend) =
        (replace_uuid um mm (String.mk (pend.reverse ++ h))).data ++
          subUuidGo um mm rest none := by
  intro h
  induction h with
  | nil =>
    intro pend rest _ hlen
    have hl : pend.length = 8 := by simpa using hlen
    simp [subUuidGo, hl]
  | cons c h ih =>
    intro pend rest hhex hlen
    have hc : isHexLower c = true := hhex c (List.mem_cons_self _ _)
    have hlt : pend.length < 8 := by
      simp only [List.length_cons] at hlen
      omega
    simp only [List.cons_append, subUuidGo]
    split_ifs with h1 h2 h3
    · exfalso
      rw [h1.1] at hc
      simp [isHexLower] at hc
    · simp only [List.append_eq]
      rw [ih (c :: pend) rest (fun d hd => hhex d (List.mem_cons_of_mem _ hd))
        (by simp only [List.length_cons] at hlen ⊢; omega)]
      simp [List.reverse_cons, List.append_assoc]
    · exact absurd ⟨hc, hlt⟩ h2
    · exact absurd ⟨hc, hlt⟩ h2

theorem subUuidGo_marker (um : List (String × SourceData))
    (mm : List (String × MetadataInfo)) (tok : String) (rest : List Char)
    (hlen : tok.data.length = 8) (hhex : ∀ c ∈ tok.data, isHexLower c = true) :
    subUuidGo um mm ('<' :: (tok.data ++ '>' :: rest)) none =
      (replace_uuid um mm tok).data ++ subUuidGo um mm rest none := by
  have h0 : subUuidGo um mm ('<' :: (tok.data ++ '>' :: rest)) none =
      subUuidGo um mm (tok.data ++ '>' :: rest) (some []) := by
    simp [subUuidGo]
  rw [h0, subUuidGo_collect um mm tok.data [] rest hhex (by simpa using hlen)]
  simp

theorem stripAngleGo_no_lt_append :
    ∀ (pre x : List Char), (∀ c ∈ pre, c ≠ '<') →
      stripAngleGo (pre ++ x) none = pre ++ stripAngleGo x none := by
  intro pre
  induction pre with
  | nil => intro x _; rfl
  | cons c cs ih =>
    intro x h
    have hc : c ≠ '<' := h c (List.mem_cons_self _ _)
    simp only [List.cons_append, stripAngleGo, if_neg hc, List.append_eq]
    rw [ih x fun d hd => h d (List.mem_cons_of_mem _ hd)]

theorem stripAngleGo_span_skip :
    ∀ (mid : List Char), '>' ∉ mid → ∀ (pend rest : List Char),
      stripAngleGo (mid ++ '>' :: rest) (some pend) = stripAngleGo rest none := by
  intro mid
  induction mid with
  | nil => intro _ pend rest; simp [stripAngleGo]
  | cons c cs ih =>
    intro h pend rest
    have hc : c ≠ '>' := fun hcc => h (hcc ▸ List.mem_cons_self _ _)
    simp only [List.cons_append, stripAngleGo, if_neg hc]
    exact ih (fun hm => h (List.mem_cons_of_mem _ hm)) _ rest

theorem stripAngleGo_marker (mid rest : List Char) (h : '>' ∉ mid) :
    stripAngleGo ('<' :: (mid ++ '>' :: rest)) none = stripAngleGo rest none := by
  have h0 : stripAngleGo ('<' :: (mid ++ '>' :: rest)) none =
      stripAngleGo (mid ++ '>' :: rest) (some []) := by
    simp [stripAngleGo]
  rw [h0]
  exact stripAngleGo_span_skip mid h [] rest

theorem stripAngleGo_good : ∀ cs : List Char,
    noAngleSpan (stripAngleGo cs none) = true ∧
    ∀ pend : List Char, '>' ∉ pend → noAngleSpan (stripAngleGo cs (some pend)) = true := by
  intro cs
  induction cs with
  | nil =>
    refine ⟨rfl, ?_⟩
    intro pend hp
    have hrev : '>' ∉ pend.reverse := by simpa using hp
    simp only [stripAngleGo, noAngleSpan, Bool.and_eq_true]
    exact ⟨by simp [hrev], noAngleSpan_of_no_gt hrev⟩
  | cons c cs ih =>
    obtain ⟨ih1, ih2⟩ := ih
    constructor
    · by_cases hc : c = '<'
      · subst hc
        simp only [stripAngleGo, if_pos rfl]
        exact ih2 [] (by simp)
      · simp only [stripAngleGo, if_neg hc, noAngleSpan, Bool.and_eq_true]
        refine ⟨?_, ih1⟩
        simp [hc]
    · intro pend hp
      by_cases hc : c = '>'
      · subst hc
        simp only [stripAngleGo, if_pos rfl]
        exact ih1
      · simp only [stripAngleGo, if_neg hc]
        exact ih2 (c :: pend) (by
          intro hm
          rcases List.mem_cons.1 hm with h1 | h1
          · exact hc h1.symm
          · exact hp h1)

theorem subUuidGo_id (um : List (String × SourceData))
    (mm : List (String × MetadataInfo)) : ∀ cs : List Char,
    (noAngleSpan cs = true → subUuidGo um mm cs none = cs) ∧
    (∀ pend : List Char, '>' ∉ cs →
      subUuidGo um mm cs (some pend) = '<' :: (pend.reverse ++ cs)) := by
  intro cs
  induction cs with
  | nil =>
    refine ⟨fun _ => rfl, ?_⟩
    intro pend _
    simp [subUuidGo]
  | cons c cs ih =>
    obtain ⟨ih1, ih2⟩ := ih
    constructor
    · intro hgood
      by_cases hc : c = '<'
      · subst hc
        have hgt : '>' ∉ cs := noAngleSpan_lt hgood
        simp only [subUuidGo, if_pos rfl]
        rw [ih2 [] hgt]
        simp
      · simp only [subUuidGo, if_neg hc]
        rw [ih1 (noAngleSpan_cons hgood)]
    · intro pend hgt
      have hcne : c ≠ '>' := fun hcc => hgt (hcc ▸ List.mem_cons_self _ _)
      have hgtcs : '>' ∉ cs := fun hm => hgt (List.mem_cons_of_mem _ hm)
      simp only [subUuidGo]
      split_ifs with h1 h2 h3
      · exact absurd h1.1 hcne
      · rw [ih2 (c :: pend) hgtcs]
        simp
      · subst h3
        rw [ih2 [] hgtcs]
        simp
      · rw [ih1 (noAngleSpan_of_no_gt hgtcs)]
        simp

theorem stripAngleGo_id : ∀ cs : List Char,
    (noAngleSpan cs = true → stripAngleGo cs none = cs) ∧
    (∀ pend : List Char, '>' ∉ cs →
      stripAngleGo cs (some pend) = '<' :: (pend.reverse ++ cs)) := by
  intro cs
  induction cs with
  | nil =>
    refine ⟨fun _ => rfl, ?_⟩
    intro pend _
    simp [stripAngleGo]
  | cons c cs ih =>
    obtain ⟨ih1, ih2⟩ := ih
    constructor
    · intro hgood
      by_cases hc : c = '<'
      · subst hc
        have hgt : '>' ∉ cs := noAngleSpan_lt hgood
        simp only [stripAngleGo, if_pos rfl]
        rw [ih2 [] hgt]
        simp
      · simp only [stripAngleGo, if_neg hc]
        rw [ih1 (noAngleSpan_cons hgood)]
    · intro pend hgt
      have hcne : c ≠ '>' := fun hcc => hgt (hcc ▸ List.mem_cons_self _ _)
      have hgtcs : '>' ∉ cs := fun hm => hgt (List.mem_cons_of_mem _ hm)
      simp only [stripAngleGo, if_neg hcne]
      rw [ih2 (c :: pend) hgtcs]
      simp

theorem digitChar_ne_lt (m : Nat) : Nat.digitChar m ≠ '<' := by
  rcases Nat.lt_or_ge m 16 with h | h
  · interval_cases m <;> decide
  · have e0 : ¬ m = 0 := by omega
    have e1 : ¬ m = 1 := by omega
    have e2 : ¬ m = 2 := by omega
    have e3 : ¬ m = 3 := by omega
    have e4 : ¬ m = 4 := by omega
    have e5 : ¬ m = 5 := by omega
    have e6 : ¬ m = 6 := by omega
    have e7 : ¬ m = 7 := by omega
    have e8 : ¬ m = 8 := by omega
    have e9 : ¬ m = 9 := by omega
    have ea : ¬ m = 0xa := by omega
    have eb : ¬ m = 0xb := by omega
    have ec : ¬ m = 0xc := by omega
    have ed : ¬ m = 0xd := by omega
    have ee : ¬ m = 0xe := by omega
    have ef : ¬ m = 0xf := by omega
    unfold Nat.digitChar
    rw [if_neg e0, if_neg e1, if_neg e2, if_neg e3, if_neg e4, if_neg e5, if_neg e6,
        if_neg e7, if_neg e8, if_neg e9, if_neg ea, if_neg eb, if_neg ec, if_neg ed,
        if_neg ee, if_neg ef]
    decide

theorem toDigitsCore_no_lt : ∀ (fuel n : Nat) (ds : List Char),
    (∀ c ∈ ds, c ≠ '<') → ∀ c ∈ Nat.toDigitsCore 10 fuel n ds, c ≠ '<' := by
  intro fuel
  induction fuel with
  | zero =>
    intro n ds hds
    simpa [Nat.toDigitsCore] using hds
  | succ fuel ih =>
    intro n ds hds
    simp only [Nat.toDigitsCore]
    split_ifs with h
    · intro c hc
      rcases List.mem_cons.1 hc with h1 | h1
      · exact h1 ▸ digitChar_ne_lt _
      · exact hds c h1
    · refine ih _ _ fun c hc => ?_
      rcases List.mem_cons.1 hc with h1 | h1
      · exact h1 ▸ digitChar_ne_lt _
      · exact hds c h1

theorem timeToString_no_lt (st : Option Nat) : ∀ c ∈ (timeToString st).data, c ≠ '<' := by
  cases st with
  | none => simp [timeToString]
  | some n =>
    intro c hc
    have h2 : (timeToString (some n)).data = Nat.toDigitsCore 10 (n + 1) n [] := rfl
    rw [h2] at hc
    exact toDigitsCore_no_lt (n + 1) n [] (by simp) c hc

theorem badgeOf_no_lt (mi : MetadataInfo) : ∀ c ∈ (badgeOf mi).data, c ≠ '<' := by
  unfold badgeOf
  split_ifs <;> decide

/-- When the token is in both maps, `replace_uuid` yields the citation
whose shape the claims describe. -/
theorem replace_uuid_found {um : List (String × SourceData)}
    {mm : List (String × MetadataInfo)} {tok : String} {sd : SourceData}
    {mi : MetadataInfo} (hsd : alookup um tok = some sd) (hmi : alookup mm tok = some mi) :
    replace_uuid um mm tok =
      if (mi.doc_type = "video" ∨ mi.doc_type = "podcast") ∧ truthyTime mi.start_time then
        "[" ++ mi.title ++ "](" ++ sd.source_url ++ "#t=" ++ timeToString mi.start_time ++
          ") — _" ++ badgeOf mi ++ "_"
      else
        "[" ++ mi.title ++ "](" ++ sd.source_url ++ ") — _" ++ badgeOf mi ++ "_" := by
  unfold replace_uuid
  rw [hsd, hmi]

/-- When the token is missing from the uuid map, `replace_uuid` keeps the
original marker (`match.group(0)`). -/
theorem replace_uuid_missing {um : List (String × SourceData)}
    {mm : List (String × MetadataInfo)} {tok : String}
    (hsd : alookup um tok = none) :
    replace_uuid um mm tok = "<" ++ tok ++ ">" := by
  unfold replace_uuid
  rw [hsd]

theorem no_lt_append {a b : String} (ha : ∀ c ∈ a.data, c ≠ '<')
    (hb : ∀ c ∈ b.data, c ≠ '<') : ∀ c ∈ (a ++ b).data, c ≠ '<' := by
  intro c hc
  rw [strData_append] at hc
  rcases List.mem_append.1 hc with h | h
  · exact ha c h
  · exact hb c h

theorem replace_uuid_found_no_lt {um : List (String × SourceData)}
    {mm : List (String × MetadataInfo)} {tok : String} {sd : SourceData}
    {mi : MetadataInfo} (hsd : alookup um tok = some sd) (hmi : alookup mm tok = some mi)
    (htitle : ∀ c ∈ mi.title.data, c ≠ '<')
    (hurl : ∀ c ∈ sd.source_url.data, c ≠ '<') :
    ∀ c ∈ (replace_uuid um mm tok).data, c ≠ '<' := by
  rw [replace_uuid_found hsd hmi]
  split_ifs with hcase
  · exact no_lt_append (no_lt_append (no_lt_append (no_lt_append (no_lt_append
      (no_lt_append (no_lt_append (no_lt_append (by decide) htitle) (by decide)) hurl)
      (by decide)) (timeToString_no_lt _)) (by decide)) (badgeOf_no_lt mi)) (by decide)
  · exact no_lt_append (no_lt_append (no_lt_append (no_lt_append (no_lt_append
      (no_lt_append (by decide) htitle) (by decide)) hurl) (by decide))
      (badgeOf_no_lt mi)) (by decide)

theorem isHexLower_ne_lt {c : Char} (h : isHexLower c = true) : c ≠ '<' := by
  intro h1
  subst h1
  exact absurd h (by decide)

theorem isHexLower_ne_gt {c : Char} (h : isHexLower c = true) : c ≠ '>' := by
  intro h1
  subst h1
  exact absurd h (by decide)

theorem sepJoin_no_lt {sep : String} (hsep : ∀ c ∈ sep.data, c ≠ '<') :
    ∀ parts : List String, (∀ p ∈ parts, ∀ c ∈ p.data, c ≠ '<') →
      ∀ c ∈ (sepJoin sep parts).data, c ≠ '<' := by
  intro parts
  induction parts with
  | nil => intro _; simp [sepJoin]
  | cons p ps ih =>
    intro hps
    cases ps with
    | nil => simpa [sepJoin] using hps p (List.mem_cons_self _ _)
    | cons q qs =>
      simp only [sepJoin]
      exact no_lt_append (no_lt_append (hps p (List.mem_cons_self _ _)) hsep)
        (ih fun r hr => hps r (List.mem_cons_of_mem _ hr))

theorem subUuid_sepJoin (um : List (String × SourceData))
    (mm : List (String × MetadataInfo)) (tok : String)
    (hlen : tok.data.length = 8) (hhex : ∀ c ∈ tok.data, isHexLower c = true) :
    ∀ parts : List String, (∀ p ∈ parts, ∀ c ∈ p.data, c ≠ '<') →
      subUuidGo um mm (sepJoin ("<" ++ tok ++ ">") parts).data none =
        (sepJoin (replace_uuid um mm tok) parts).data := by
  intro parts
  induction parts with
  | nil => intro _; rfl
  | cons p ps ih =>
    intro hps
    have hp : ∀ c ∈ p.data, c ≠ '<' := hps p (List.mem_cons_self _ _)
    cases ps with
    | nil =>
      have hid : subUuidGo um mm (p.data ++ []) none = p.data ++ subUuidGo um mm [] none :=
        subUuidGo_no_lt_append um mm p.data [] hp
      simpa [sepJoin, subUuidGo] using hid
    | cons q qs =>
      have hdata : (sepJoin ("<" ++ tok ++ ">") (p :: q :: qs)).data =
          p.data ++ ('<' :: (tok.data ++ '>' ::
            (sepJoin ("<" ++ tok ++ ">") (q :: qs)).data)) := by
        simp [sepJoin, strData_append]
      rw [hdata, subUuidGo_no_lt_append um mm _ _ hp,
        subUuidGo_marker um mm tok _ hlen hhex,
        ih fun r hr => hps r (List.mem_cons_of_mem _ hr)]
      simp [sepJoin, strData_append, List.append_assoc]

theorem stripAngle_sepJoin_marker (tok : String) (hgt : '>' ∉ tok.data) :
    ∀ parts : List String, (∀ p ∈ parts, ∀ c ∈ p.data, c ≠ '<') →
      stripAngleGo (sepJoin ("<" ++ tok ++ ">") parts).data none =
        (sepJoin "" parts).data := by
  intro parts
  induction parts with
  | nil => intro _; rfl
  | cons p ps ih =>
    intro hps
    have hp : ∀ c ∈ p.data, c ≠ '<' := hps p (List.mem_cons_self _ _)
    cases ps with
    | nil =>
      have hid : stripAngleGo (p.data ++ []) none = p.data ++ stripAngleGo [] none :=
        stripAngleGo_no_lt_append p.data [] hp
      simpa [sepJoin, stripAngleGo] using hid
    | cons q qs =>
      have hdata : (sepJoin ("<" ++ tok ++ ">") (p :: q :: qs)).data =
          p.data ++ ('<' :: (tok.data ++ '>' ::
            (sepJoin ("<" ++ tok ++ ">") (q :: qs)).data)) := by
        simp [sepJoin, strData_append]
      rw [hdata, stripAngleGo_no_lt_append _ _ hp,
        stripAngleGo_marker tok.data _ hgt,
        ih fun r hr => hps r (List.mem_cons_of_mem _ hr)]
      simp [sepJoin, strData_append]

/-- C4: for a token present in both citation maps, every occurrence of
the bracketed marker in the model output is replaced by `process_text`
with the markdown citation `[title](url) — _[badge]_`; the badge is
`[Subscriber-only]` exactly when the access flag is the string `"true"`
(else `[Public]`), and the URL carries a `#t=start_time` suffix exactly
when the document type is `video` or `podcast` and `start_time` is
truthy (present and nonzero).  The text is presented as the parts
between marker occurrences; parts, title and URL contain no `<` (a `<`
inside them would start a different marker or span). -/
theorem C4_token_resolution
    (um : List (String × SourceData)) (mm : List (String × MetadataInfo))
    (tok : String) (sd : SourceData) (mi : MetadataInfo) (parts : List String)
    (hlen : tok.data.length = 8)
    (hhex : ∀ c ∈ tok.data, isHexLower c = true)
    (hsd : alookup um tok = some sd)
    (hmi : alookup mm tok = some mi)
    (htitle : ∀ c ∈ mi.title.data, c ≠ '<')
    (hurl : ∀ c ∈ sd.source_url.data, c ≠ '<')
    (hparts : ∀ p ∈ parts, ∀ c ∈ p.data, c ≠ '<') :
    process_text (sepJoin ("<" ++ tok ++ ">") parts) um mm
      = sepJoin (replace_uuid um mm tok) parts ∧
    ((mi.doc_type = "video" ∨ mi.doc_type = "podcast") ∧ truthyTime mi.start_time →
      replace_uuid um mm tok =
        "[" ++ mi.title ++ "](" ++ sd.source_url ++ "#t=" ++ timeToString mi.start_time ++
          ") — _" ++ badgeOf mi ++ "_") ∧
    (¬ ((mi.doc_type = "video" ∨ mi.doc_type = "podcast") ∧ truthyTime mi.start_time) →
      replace_uuid um mm tok =
        "[" ++ mi.title ++ "](" ++ sd.source_url ++ ") — _" ++ badgeOf mi ++ "_") ∧
    (mi.member_content_flag = "true" → badgeOf mi = "[Subscriber-only]") ∧
    (mi.member_content_flag ≠ "true" → badgeOf mi = "[Public]") := by
  refine ⟨?_, ?_, ?_, ?_, ?_⟩
  · have hrepl : ∀ c ∈ (replace_uuid um mm tok).data, c ≠ '<' :=
      replace_uuid_found_no_lt hsd hmi htitle hurl
    have h1 := subUuid_sepJoin um mm tok hlen hhex parts hparts
    have h2 : stripAngleGo (sepJoin (replace_uuid um mm tok) parts).data none =
        (sepJoin (replace_uuid um mm tok) parts).data :=
      (stripAngleGo_id _).1 (noAngleSpan_of_no_lt (sepJoin_no_lt hrepl parts hparts))
    show String.mk (stripAngleGo (subUuidGo um mm
      (sepJoin ("<" ++ tok ++ ">") parts).data none) none) = _
    rw [h1, h2]
  · intro hcase
    rw [replace_uuid_found hsd hmi, if_pos hcase]
  · intro hcase
    rw [replace_uuid_found hsd hmi, if_neg hcase]
  · intro hflag
    unfold badgeOf
    rw [if_pos hflag]
  · intro hflag
    unfold badgeOf
    rw [if_neg hflag]

/-- Concrete data for the spec's Scenario C / Scenario D. -/
def sdC : SourceData :=
  { source_url := "https://x", doc_type := "text", start_time := none,
    member_content := "false", title := "doc.pdf" }

/-- Metadata entry for Scenario C. -/
def miC : MetadataInfo :=
  { title := "doc.pdf", parent_folder_name := "", parent_folder_url := "",
    member_content_flag := "false", doc_type := "text", start_time := none }

/-- C4 witness: Scenario C — `"See <a1b2c3d4> for details"` with the
token mapped to `https://x` / `doc.pdf` resolves to
`"See [doc.pdf](https://x) — _[Public]_ for details"`. -/
theorem C4_token_resolution_witness :
    process_text (sepJoin ("<" ++ "a1b2c3d4" ++ ">") ["See ", " for details"])
        [("a1b2c3d4", sdC)] [("a1b2c3d4", miC)]
      = sepJoin (replace_uuid [("a1b2c3d4", sdC)] [("a1b2c3d4", miC)] "a1b2c3d4")
          ["See ", " for details"] ∧
    sepJoin ("<" ++ "a1b2c3d4" ++ ">") ["See ", " for details"]
      = "See <a1b2c3d4> for details" ∧
    sepJoin (replace_uuid [("a1b2c3d4", sdC)] [("a1b2c3d4", miC)] "a1b2c3d4")
        ["See ", " for details"]
      = "See [doc.pdf](https://x) — _[Public]_ for details" :=
  ⟨(C4_token_resolution [("a1b2c3d4", sdC)] [("a1b2c3d4", miC)] "a1b2c3d4" sdC miC
      ["See ", " for details"] (by decide) (by decide) (by decide) (by decide)
      (by decide) (by decide) (by decide)).1,
   by decide, by decide⟩

/-- C5: an angle-bracketed 8-hex token that is not present in the
citation map is removed entirely by `process_text` (pass 1 keeps the
marker unchanged, pass 2 strips every remaining angle-bracket span);
it is never left as a raw marker, and `process_text` is total, so it
never raises.  The text is presented as the parts between marker
occurrences, each free of `<`. -/
theorem C5_unknown_token_stripped
    (um : List (String × SourceData)) (mm : List (String × MetadataInfo))
    (tok : String) (parts : List String)
    (hlen : tok.data.length = 8)
    (hhex : ∀ c ∈ tok.data, isHexLower c = true)
    (hsd : alookup um tok = none)
    (hparts : ∀ p ∈ parts, ∀ c ∈ p.data, c ≠ '<') :
    process_text (sepJoin ("<" ++ tok ++ ">") parts) um mm = sepJoin "" parts := by
  have h1 := subUuid_sepJoin um mm tok hlen hhex parts hparts
  rw [replace_uuid_missing hsd] at h1
  have hgt : '>' ∉ tok.data := fun hm => isHexLower_ne_gt (hhex _ hm) rfl
  have h2 := stripAngle_sepJoin_marker tok hgt parts hparts
  show String.mk (stripAngleGo (subUuidGo um mm
    (sepJoin ("<" ++ tok ++ ">") parts).data none) none) = _
  rw [h1, h2]

/-- C5 witness: Scenario D — the same text with token `a1b2c3d4` absent
from the maps resolves to `"See  for details"` (marker stripped, no
crash). -/
theorem C5_unknown_token_stripped_witness :
    process_text (sepJoin ("<" ++ "a1b2c3d4" ++ ">") ["See ", " for details"]) [] []
      = sepJoin "" ["See ", " for details"] ∧
    sepJoin "" ["See ", " for details"] = "See  for details" :=
  ⟨C5_unknown_token_stripped [] [] "a1b2c3d4" ["See ", " for details"]
      (by decide) (by decide) (by decide) (by decide),
   by decide⟩

/-- C9: `process_text` is idempotent — applying it to its own output
(with the same mapping pair) returns that output unchanged: after the
cleanup pass no `<` is followed by a later `>`, so neither the token
pattern nor the cleanup pattern can match again. -/
theorem C9_process_text_idempotent (text : String)
    (um : List (String × SourceData)) (mm : List (String × MetadataInfo)) :
    process_text (process_text text um mm) um mm = process_text text um mm := by
  have hgood : noAngleSpan (stripAngleGo (subUuidGo um mm text.data none) none) = true :=
    (stripAngleGo_good (subUuidGo um mm text.data none)).1
  show String.mk (stripAngleGo (subUuidGo um mm
    (stripAngleGo (subUuidGo um mm text.data none) none) none) none) = _
  rw [(subUuidGo_id um mm _).1 hgood, (stripAngleGo_id _).1 hgood]
  rfl

theorem format_go_shift (h : Hit) (docs : List Hit) :
    ∀ (sm : List (String × SourceData)) (i : Nat),
      format_documents_go (h :: docs) sm (i + 1) = format_documents_go docs sm i := by
  intro sm
  induction sm with
  | nil => intro i; rfl
  | cons p rest ih =>
    intro i
    obtain ⟨tok, d⟩ := p
    simp only [format_documents_go, List.getElem?_cons_succ]
    cases hdoc : docs[i]? with
    | none => simpa using ih (i + 1)
    | some hit =>
      cases hsrc : hit.source with
      | none =>
        simp only [hsrc]
        exact ih (i + 1)
      | some src =>
        simp only [hsrc]
        rw [ih (i + 1)]

theorem extract_go_shift (p : String × SourceData) (sm : List (String × SourceData)) :
    ∀ (docs : List Hit) (i : Nat),
      extract_metadata_go (p :: sm) docs (i + 1) = extract_metadata_go sm docs i := by
  intro docs
  induction docs with
  | nil => intro i; rfl
  | cons item rest ih =>
    intro i
    simp only [extract_metadata_go, List.getElem?_cons_succ]
    cases hsrc : item.source with
    | none =>
      simp only [hsrc]
      exact ih (i + 1)
    | some src =>
      simp only [hsrc]
      cases hsm : sm[i]? with
      | none => exact ih (i + 1)
      | some q => rw [ih (i + 1)]

theorem generate_go_shift (supply : Nat → String) :
    ∀ (docs : List Hit) (n : Nat),
      generate_source_mapping_go supply docs (n + 1) =
        generate_source_mapping_go (fun k => supply (k + 1)) docs n := by
  intro docs
  induction docs with
  | nil => intro n; rfl
  | cons h rest ih =>
    intro n
    simp only [generate_source_mapping_go]
    cases hsrc : h.source with
    | none =>
      simp only [hsrc]
      exact ih n
    | some src =>
      simp only [hsrc]
      rw [ih (n + 1)]

/-- C2 (amended): when every hit carries a `_source`, the three
collections are built in lockstep from the same ordered hit list: the
token spine of the model-visible view and of the metadata map is
exactly the token spine of the source mapping, and position `i` of each
carries the data of hit `i` (passage, source URL, title, folder name).
The original claim also asserted this for lists with `_source`-less
hits, where it fails (see the counterexample): `generate_source_mapping`
skips such hits while the two consumers index the raw hit list, so the
spines shift against each other. -/
theorem C2_lockstep_alignment (documents : List Hit) (supply : Nat → String)
    (hall : ∀ h ∈ documents, h.source.isSome = true) :
    ((format_documents_for_llm documents (generate_source_mapping documents supply)).map
        (·.uuid) =
      (generate_source_mapping documents supply).map Prod.fst) ∧
    ((extract_metadata_for_substitution documents
        (generate_source_mapping documents supply)).map Prod.fst =
      (generate_source_mapping documents supply).map Prod.fst) ∧
    ((format_documents_for_llm documents (generate_source_mapping documents supply)).map
        (·.passage) =
      documents.filterMap fun h => h.source.map (·.passage)) ∧
    ((generate_source_mapping documents supply).map (fun p => p.2.source_url) =
      documents.filterMap fun h => h.source.map fun s => s.metadata.source_url) ∧
    ((extract_metadata_for_substitution documents
        (generate_source_mapping documents supply)).map (fun p => p.2.title) =
      documents.filterMap fun h => h.source.map fun s => s.metadata.doc_id.getD "Document") := by
  induction documents generalizing supply with
  | nil => exact ⟨rfl, rfl, rfl, rfl, rfl⟩
  | cons h rest ih =>
    obtain ⟨src, hsrc⟩ := Option.isSome_iff_exists.mp (hall h (List.mem_cons_self _ _))
    have hallr : ∀ x ∈ rest, x.source.isSome = true :=
      fun x hx => hall x (List.mem_cons_of_mem _ hx)
    have hsm : generate_source_mapping (h :: rest) supply =
        (supply 0, mkSourceData src) ::
          generate_source_mapping rest (fun k => supply (k + 1)) := by
      simp only [generate_source_mapping, generate_source_mapping_go, hsrc]
      rw [generate_go_shift]
    have hfmt : format_documents_for_llm (h :: rest)
          (generate_source_mapping (h :: rest) supply) =
        { uuid := supply 0, document_name := src.metadata.doc_id.getD "",
          passage := src.passage } ::
          format_documents_for_llm rest
            (generate_source_mapping rest (fun k => supply (k + 1))) := by
      rw [hsm]
      simp only [format_documents_for_llm, format_documents_go,
        List.getElem?_cons_zero, hsrc]
      rw [format_go_shift]
    have hext : extract_metadata_for_substitution (h :: rest)
          (generate_source_mapping (h :: rest) supply) =
        (supply 0, mkMetadataInfo src) ::
          extract_metadata_for_substitution rest
            (generate_source_mapping rest (fun k => supply (k + 1))) := by
      rw [hsm]
      simp only [extract_metadata_for_substitution, extract_metadata_go, hsrc,
        List.getElem?_cons_zero]
      rw [extract_go_shift]
    obtain ⟨ih1, ih2, ih3, ih4, ih5⟩ := ih (fun k => supply (k + 1)) hallr
    refine ⟨?_, ?_, ?_, ?_, ?_⟩
    · rw [hfmt, hsm]
      simp only [List.map_cons]
      rw [ih1]
    · rw [hext, hsm]
      simp only [List.map_cons]
      rw [ih2]
    · rw [hfmt]
      simp only [List.map_cons, List.filterMap_cons, hsrc, Option.map_some']
      rw [ih3]
    · rw [hsm]
      simp only [List.map_cons, List.filterMap_cons, hsrc, Option.map_some']
      rw [ih4]
      rfl
    · rw [hext]
      simp only [List.map_cons, List.filterMap_cons, hsrc, Option.map_some']
      rw [ih5]
      rfl

/-- A hit source with the given passage and source URL. -/
def srcP (p u : String) : Src :=
  { passage := p, type := "text",
    metadata := { doc_id := some ("doc_" ++ p), source_url := u, member_content := "",
                  parent_folder_name := "", parent_folder_url := "", start_time := 0 } }

/-- A concrete token stream for witnesses and counterexamples. -/
def supplyC (n : Nat) : String := "tok" ++ toString n

/-- A hit list whose first hit lacks `_source` (e.g. a malformed or
filtered OpenSearch hit), followed by two normal hits. -/
def hitsMis : List Hit :=
  [⟨none, none⟩, ⟨some "id1", some (srcP "p1" "u1")⟩, ⟨some "id2", some (srcP "p2" "u2")⟩]

/-- C2 counterexample: with a `_source`-less first hit, the collections
fall out of lockstep.  `generate_source_mapping` mints `tok0 ↦ u1`,
`tok1 ↦ u2`; but `format_documents_for_llm` emits exactly one entry,
attaching passage `p1` (whose document's URL is `u1`, stored under
`tok0`) to token `tok1`, under which the source mapping stores `u2` —
the citation attaches to the wrong document, refuting the claim for
lists in which some hits lack `_source`. -/
theorem C2_counterexample_sourceless_hit :
    (format_documents_for_llm hitsMis (generate_source_mapping hitsMis supplyC)).map
        (fun e => (e.uuid, e.passage)) = [(supplyC 1, "p1")] ∧
    alookup (generate_source_mapping hitsMis supplyC) (supplyC 1) =
      some (mkSourceData (srcP "p2" "u2")) ∧
    (mkSourceData (srcP "p2" "u2")).source_url = "u2" ∧
    alookup (generate_source_mapping hitsMis supplyC) (supplyC 0) =
      some (mkSourceData (srcP "p1" "u1")) ∧
    (mkSourceData (srcP "p1" "u1")).source_url = "u1" ∧
    hitsMis.filterMap (fun h => h.source.map fun s => (s.passage, s.metadata.source_url)) =
      [("p1", "u1"), ("p2", "u2")] ∧
    supplyC 1 ≠ supplyC 0 ∧ ("u1" : String) ≠ "u2" := by decide

/-- A hit list in which every hit has a `_source`. -/
def hitsOk : List Hit :=
  [⟨some "a", some (srcP "p1" "u1")⟩, ⟨some "b", some (srcP "p2" "u2")⟩]

/-- C2 witness: the lockstep alignment at a concrete all-`_source` hit
list. -/
theorem C2_lockstep_alignment_witness :
    (format_documents_for_llm hitsOk (generate_source_mapping hitsOk supplyC)).map
        (·.uuid) =
      (generate_source_mapping hitsOk supplyC).map Prod.fst :=
  (C2_lockstep_alignment hitsOk supplyC (by decide)).1

theorem lambda_handler_err_body {env : Env} (hb : env.body = .error ()) :
    lambda_handler env = (.err "Error processing message", []) := by
  unfold lambda_handler
  rw [hb]

theorem lambda_handler_err_stored {env : Env} {q sid : String}
    (hb : env.body = .ok (q, sid)) (hs : env.stored = .error ()) :
    lambda_handler env = (.err "Error processing message", []) := by
  unfold lambda_handler
  rw [hb, hs]

theorem lambda_handler_err_retrieval {env : Env} {q sid : String} {stored : List Msg}
    (hb : env.body = .ok (q, sid)) (hs : env.stored = .ok stored)
    (hr : env.retrieval (build_conversation_context (get_conversation_history stored) q) =
      .error ()) :
    lambda_handler env = (.err "Error processing message", []) := by
  unfold lambda_handler
  rw [hb, hs]
  simp only [hr]

theorem lambda_handler_err_model {env : Env} {q sid : String} {stored : List Msg}
    {docs : List Hit}
    (hb : env.body = .ok (q, sid)) (hs : env.stored = .ok stored)
    (hr : env.retrieval (build_conversation_context (get_conversation_history stored) q) =
      .ok docs)
    (hm : env.model (buildPrompt (get_conversation_history stored) q
      (env.template
        (strFormattedDocs (format_documents_for_llm docs
          (generate_source_mapping docs env.supply)))
        (strSimplifiedMapping ((generate_source_mapping docs env.supply).map
          fun p => (p.1, p.2.source_url))))) = none) :
    lambda_handler env = (.err "Error processing message", []) := by
  unfold lambda_handler
  rw [hb, hs]
  simp only [hr, hm]

theorem lambda_handler_success {env : Env} {q sid : String} {stored : List Msg}
    {docs : List Hit} {mr : String}
    (hb : env.body = .ok (q, sid)) (hs : env.stored = .ok stored)
    (hr : env.retrieval (build_conversation_context (get_conversation_history stored) q) =
      .ok docs)
    (hm : env.model (buildPrompt (get_conversation_history stored) q
      (env.template
        (strFormattedDocs (format_documents_for_llm docs
          (generate_source_mapping docs env.supply)))
        (strSimplifiedMapping ((generate_source_mapping docs env.supply).map
          fun p => (p.1, p.2.source_url))))) = some mr) :
    lambda_handler env =
      (.ok (process_text
          (add_meeting_list mr
            (extract_metadata_for_substitution docs (generate_source_mapping docs env.supply)))
          (generate_source_mapping docs env.supply)
          (extract_metadata_for_substitution docs (generate_source_mapping docs env.supply)))
        sid (env.clock 1),
       [{ session_id := sid, timestamp := env.clock 0, role := "user",
          content := q, document_ids := none },
        { session_id := sid, timestamp := env.clock 1, role := "assistant",
          content := process_text
            (add_meeting_list mr
              (extract_metadata_for_substitution docs (generate_source_mapping docs env.supply)))
            (generate_source_mapping docs env.supply)
            (extract_metadata_for_substitution docs (generate_source_mapping docs env.supply)),
          document_ids := if extract_document_ids docs = [] then none
            else some (extract_document_ids docs) }]) := by
  unfold lambda_handler
  rw [hb, hs]
  simp only [hr, hm]

/-- Exhaustive description of `lambda_handler`: either some step failed
and the result is the generic 500 with no writes, or every step
succeeded and the result is the resolved response with exactly the two
writes. -/
theorem lambda_handler_cases (env : Env) :
    lambda_handler env = (.err "Error processing message", []) ∨
    ∃ q sid stored docs mr,
      env.body = .ok (q, sid) ∧ env.stored = .ok stored ∧
      env.retrieval (build_conversation_context (get_conversation_history stored) q) =
        .ok docs ∧
      env.model (buildPrompt (get_conversation_history stored) q
        (env.template
          (strFormattedDocs (format_documents_for_llm docs
            (generate_source_mapping docs env.supply)))
          (strSimplifiedMapping ((generate_source_mapping docs env.supply).map
            fun p => (p.1, p.2.source_url))))) = some mr ∧
      lambda_handler env =
        (.ok (process_text
            (add_meeting_list mr
              (extract_metadata_for_substitution docs (generate_source_mapping docs env.supply)))
            (generate_source_mapping docs env.supply)
            (extract_metadata_for_substitution docs (generate_source_mapping docs env.supply)))
          sid (env.clock 1),
         [{ session_id := sid, timestamp := env.clock 0, role := "user",
            content := q, document_ids := none },
          { session_id := sid, timestamp := env.clock 1, role := "assistant",
            content := process_text
              (add_meeting_list mr
                (extract_metadata_for_substitution docs
                  (generate_source_mapping docs env.supply)))
              (generate_source_mapping docs env.supply)
              (extract_metadata_for_substitution docs (generate_source_mapping docs env.supply)),
            document_ids := if extract_document_ids docs = [] then none
              else some (extract_document_ids docs) }]) := by
  rcases hb : env.body with e | ⟨q, sid⟩
  · cases e
    exact Or.inl (lambda_handler_err_body hb)
  · rcases hs : env.stored with e | stored
    · cases e
      exact Or.inl (lambda_handler_err_stored hb hs)
    · rcases hr : env.retrieval (build_conversation_context (get_conversation_history stored) q)
        with e | docs
      · cases e
        exact Or.inl (lambda_handler_err_retrieval hb hs hr)
      · rcases hm : env.model (buildPrompt (get_conversation_history stored) q
          (env.template
            (strFormattedDocs (format_documents_for_llm docs
              (generate_source_mapping docs env.supply)))
            (strSimplifiedMapping ((generate_source_mapping docs env.supply).map
              fun p => (p.1, p.2.source_url))))) with _ | mr
        · exact Or.inl (lambda_handler_err_model hb hs hr hm)
        · exact Or.inr ⟨q, sid, stored, docs, mr, rfl, rfl, hr, hm,
            lambda_handler_success hb hs hr hm⟩

/-- C10: the handler touches the conversation store only after the final
response exists.  If any step fails (request parsing, history read,
retrieval, or the model invocation — response resolution is total),
the handler returns the generic 500 error and performs no write; on
success exactly two messages are written, user then assistant, both
under the request's session id, and the returned timestamp is the
assistant write's timestamp. -/
theorem C10_store_writes_atomic (env : Env) :
    (∀ m, (lambda_handler env).1 = .err m → (lambda_handler env).2 = []) ∧
    (∀ r s t, (lambda_handler env).1 = .ok r s t →
      t = env.clock 1 ∧
      ∃ q dids, (lambda_handler env).2 =
        [{ session_id := s, timestamp := env.clock 0, role := "user", content := q,
           document_ids := none },
         { session_id := s, timestamp := t, role := "assistant", content := r,
           document_ids := dids }]) := by
  rcases lambda_handler_cases env with h | ⟨q, sid, stored, docs, mr, _, _, _, _, h⟩
  · rw [h]
    constructor
    · intro m _
      rfl
    · intro r s t hok
      simp at hok
  · rw [h]
    constructor
    · intro m hm2
      simp at hm2
    · intro r s t hok
      simp only [LambdaOut.ok.injEq] at hok
      obtain ⟨h1, h2, h3⟩ := hok
      subst h1
      subst h2
      subst h3
      exact ⟨rfl, q,
        if extract_document_ids docs = [] then none else some (extract_document_ids docs), rfl⟩

/-- C7 (amended): `add_meeting_list`, applied in the pipeline strictly
before token resolution to the raw answer (final conjunct), collects
the tokens found by the left-to-right, non-overlapping scan for bare
8-hex-character substrings — not every overlapping substring, see the
counterexample — keeps exactly those whose metadata has non-empty
`parent_folder_name` and `parent_folder_url`, and appends one
"**Meetings referenced:**" section with one bullet per distinct
`(folder_name, folder_url, access_flag)` triple, deduplicated and
sorted, each bullet badged `*[Subscriber-only]*` exactly when the flag
is `"true"` and `*[Public]*` otherwise. -/
theorem C7_meeting_list (text : String) (mm : List (String × MetadataInfo)) :
    ∃ ms : List (String × String × String),
      ms.Nodup ∧ ms.Pairwise tripleLE ∧
      (∀ tr, tr ∈ ms ↔ ∃ tok ∈ findTokens text.data, meetingTriple mm tok = some tr) ∧
      (∀ tok tr, meetingTriple mm tok = some tr ↔
        ∃ md, alookup mm tok = some md ∧ md.parent_folder_name ≠ "" ∧
          md.parent_folder_url ≠ "" ∧
          tr = (md.parent_folder_name, md.parent_folder_url, md.member_content_flag)) ∧
      add_meeting_list text mm =
        (if ms = [] then text
         else text ++ "\n\n**Meetings referenced:**\n" ++ String.join (ms.map bulletFor)) ∧
      (∀ tr : String × String × String,
        (tr.2.2 = "true" →
          bulletFor tr = "- [" ++ tr.1 ++ "](" ++ tr.2.1 ++ ") — " ++
            "*[Subscriber-only]*" ++ "\n") ∧
        (tr.2.2 ≠ "true" →
          bulletFor tr = "- [" ++ tr.1 ++ "](" ++ tr.2.1 ++ ") — " ++
            "*[Public]*" ++ "\n")) ∧
      (∀ env r s t, (lambda_handler env).1 = .ok r s t →
        ∃ docs mr, r = process_text
          (add_meeting_list mr (extract_metadata_for_substitution docs
            (generate_source_mapping docs env.supply)))
          (generate_source_mapping docs env.supply)
          (extract_metadata_for_substitution docs (generate_source_mapping docs env.supply))) := by
  refine ⟨List.insertionSort tripleLE
    (((findTokens text.data).dedup.filterMap (meetingTriple mm)).dedup),
    ?_, ?_, ?_, ?_, ?_, ?_, ?_⟩
  · exact ((List.perm_insertionSort tripleLE _).nodup_iff).2 (List.nodup_dedup _)
  · exact List.sorted_insertionSort tripleLE _
  · intro tr
    rw [List.mem_insertionSort, List.mem_dedup, List.mem_filterMap]
    constructor
    · rintro ⟨tok, htok, htr⟩
      exact ⟨tok, List.mem_dedup.1 htok, htr⟩
    · rintro ⟨tok, htok, htr⟩
      exact ⟨tok, List.mem_dedup.2 htok, htr⟩
  · intro tok tr
    unfold meetingTriple
    cases hmd : alookup mm tok with
    | none =>
      simp only []
      constructor
      · intro h
        exact absurd h (by simp)
      · rintro ⟨md, hmd2, _⟩
        exact absurd hmd2 (by simp)
    | some md =>
      dsimp only
      split_ifs with hcond
      · constructor
        · intro h
          exact ⟨md, rfl, hcond.1, hcond.2, (Option.some.injEq _ _ ▸ h).symm⟩
        · rintro ⟨md2, hmd2, _, _, htr⟩
          rw [Option.some.injEq] at hmd2
          subst hmd2
          rw [htr]
      · constructor
        · intro h
          exact absurd h (by simp)
        · rintro ⟨md2, hmd2, hn, hu, _⟩
          rw [Option.some.injEq] at hmd2
          subst hmd2
          exact absurd ⟨hn, hu⟩ hcond
  · unfold add_meeting_list
    dsimp only
    by_cases hm : ((findTokens text.data).dedup.filterMap (meetingTriple mm)).dedup = []
    · rw [hm, if_neg (fun hne => hne rfl),
        if_pos (show List.insertionSort tripleLE [] = [] from rfl)]
    · have hms : List.insertionSort tripleLE
          (((findTokens text.data).dedup.filterMap (meetingTriple mm)).dedup) ≠ [] := by
        intro hnil
        apply hm
        have := (List.perm_insertionSort tripleLE
          (((findTokens text.data).dedup.filterMap (meetingTriple mm)).dedup)).length_eq
        rw [hnil] at this
        exact List.length_eq_zero.1 this.symm
      rw [if_pos hm, if_neg hms]
  · intro tr
    constructor
    · intro hflag
      unfold bulletFor
      rw [if_pos hflag]
    · intro hflag
      unfold bulletFor
      rw [if_neg hflag]
  · intro env r s t hok
    rcases lambda_handler_cases env with h | ⟨q, sid, stored, docs, mr, _, _, _, _, h⟩
    · rw [h] at hok
      simp at hok
    · rw [h] at hok
      simp only [LambdaOut.ok.injEq] at hok
      exact ⟨docs, mr, hok.1.symm⟩

/-- Metadata mapping owning token `12345678` with qualifying folder
metadata. -/
def mmOverlap : List (String × MetadataInfo) :=
  [("12345678", { title := "t", parent_folder_name := "F", parent_folder_url := "http://f",
                  member_content_flag := "false", doc_type := "text", start_time := none })]

/-- C7 counterexample: `"0123456789abcdef"` contains the bare
8-hex-character substring `"12345678"` (at offset 1), whose metadata has
non-empty folder name and URL; but `re.findall` scans non-overlapping
from the left, finding only `"01234567"` and `"89abcdef"`, so
`add_meeting_list` appends no section at all — the claim's "every bare
8-hex-character substring" fails for overlapping occurrences. -/
theorem C7_counterexample_overlapping_substring :
    ("0123456789abcdef".data.drop 1).take 8 = "12345678".data ∧
    meetingTriple mmOverlap "12345678" = some ("F", "http://f", "false") ∧
    findTokens "0123456789abcdef".data = ["01234567", "89abcdef"] ∧
    add_meeting_list "0123456789abcdef" mmOverlap = "0123456789abcdef" := by decide

/-- C8 (amended): when the retrieved history is non-empty, the prompt
begins with the delimited `<conversation_history>` block containing at
most the last 4 messages of the retrieved history — a suffix of it —
each formatted as `Role: content`, followed by `User: <query>` and the
filled template.  Because of the history-trimming slip (C3), with six
stored messages the retrieved history is messages 1–5, so the block
shows messages 2–5, not the conversation's most recent four (see the
counterexample). -/
theorem C8_prompt_history_block (history : List Msg) (q filled : String)
    (hne : history ≠ []) :
    buildPrompt history q filled =
      historyContext history ++ "User: " ++ q ++ "\n" ++ filled ∧
    historyContext history =
      "<conversation_history>" ++
        String.join ((history.drop (history.length - 4)).map fun msg =>
          titleCase msg.role ++ ": " ++ msg.content ++ "\n") ++
        "\n" ++ "</conversation_history>" ∧
    (history.drop (history.length - 4)).length ≤ 4 ∧
    history.drop (history.length - 4) <:+ history := by
  refine ⟨rfl, ?_, ?_, List.drop_suffix _ _⟩
  · unfold historyContext
    rw [if_neg hne]
  · rw [List.length_drop]
    omega

/-- C8 witness: the block shape at a concrete two-message history. -/
theorem C8_prompt_history_block_witness :
    buildPrompt [⟨"user", "hi"⟩, ⟨"assistant", "yo"⟩] "q2" "TPL" =
      historyContext [⟨"user", "hi"⟩, ⟨"assistant", "yo"⟩] ++ "User: " ++ "q2" ++ "\n" ++
        "TPL" :=
  (C8_prompt_history_block [⟨"user", "hi"⟩, ⟨"assistant", "yo"⟩] "q2" "TPL" (by decide)).1

/-- The six stored messages of the claim's example, chronological. -/
def stored6 : List Msg :=
  [⟨"user", "m1"⟩, ⟨"assistant", "m2"⟩, ⟨"user", "m3"⟩,
   ⟨"assistant", "m4"⟩, ⟨"user", "m5"⟩, ⟨"assistant", "m6"⟩]

/-- C8 counterexample: with six stored messages, the history block the
handler builds contains messages 2–5, not the conversation's most
recent four (3–6): the retrieved history is already the oldest five
(C3's slip), so the block misses message 6 entirely. -/
theorem C8_counterexample_six_stored :
    historyContext (get_conversation_history stored6) =
      "<conversation_history>" ++
        "Assistant: m2\nUser: m3\nAssistant: m4\nUser: m5\n" ++
        "\n" ++ "</conversation_history>" ∧
    stored6.drop (stored6.length - 4) =
      [⟨"user", "m3"⟩, ⟨"assistant", "m4"⟩, ⟨"user", "m5"⟩, ⟨"assistant", "m6"⟩] ∧
    historyContext (get_conversation_history stored6) ≠
      historyContext (stored6.drop (stored6.length - 4)) := by decide
